import Mathlib

/-!
Shallow embedding of the engineering core of the java-profiler repository:
the varint encoders of the flight recorder (src/src/flightRecorder.cpp),
the code cache symbol resolver (src/ddprof-lib/src/main/cpp/codeCache.cpp),
the per-thread context table (src/ddprof-lib/src/main/cpp/context.cpp) and
the liveness tracker (src/ddprof-lib/src/main/cpp/livenessTracker.cpp).
Machine integers are modelled as Nat/Int with explicit `% 2 ^ w` where
overflow can occur; pointers are modelled as Nat addresses; fallible
operations return Option.
-/

namespace JavaProfiler

/-! ### Buffer varint encoders (src/src/flightRecorder.cpp, lines 365-386)

`putVar32` is the loop `while (v > 0x7f) { _data[_offset++] = (char)v | 0x80; v >>= 7; }
_data[_offset++] = (char)v;`.  A stored byte `(char)v | 0x80` holds the low seven
bits of `v` with the continuation bit set, i.e. the byte value `v % 128 + 128`.
The loop is embedded with a fuel argument so that it stays structurally
recursive; for a 32-bit `v` at most four continuation bytes are emitted, so a
fuel of 5 never runs out, and for the 21-bit leftovers of `putVar64` a fuel of
3 never runs out. -/

def varLoop : Nat → Nat → List Nat
  | 0, v => [v]
  | fuel + 1, v => if v > 0x7f then (v % 128 + 128) :: varLoop fuel (v / 128) else [v]

/-- Model of `Buffer::putVar32(u32 v)` (flightRecorder.cpp line 365): the byte list written. -/
def putVar32 (v : Nat) : List Nat := varLoop 5 v

/-- One pass of the unrolled fast loop of `putVar64`: three bytes
`(char)v | 0x80` with `v >>= 7` in between. -/
def fastBytes (v : Nat) : List Nat :=
  [v % 128 + 128, v / 128 % 128 + 128, v / 16384 % 128 + 128]

/-- Model of `Buffer::putVar64(u64 v)` (flightRecorder.cpp line 373).  The source loop
`while (v > 0x1fffff)` runs at most three times for a 64-bit `v` (each pass
shifts 21 bits away), so it is unrolled here.  After the third pass the source
executes `if (++iter == 3) return;`, leaving the function without emitting the
remaining bits or a terminating byte; the third branch below reproduces that. -/
def putVar64 (v : Nat) : List Nat :=
  if v > 0x1fffff then
    if v / 2097152 > 0x1fffff then
      if v / 2097152 / 2097152 > 0x1fffff then
        fastBytes v ++ fastBytes (v / 2097152) ++ fastBytes (v / 2097152 / 2097152)
      else
        fastBytes v ++ fastBytes (v / 2097152) ++ varLoop 3 (v / 2097152 / 2097152)
    else
      fastBytes v ++ varLoop 3 (v / 2097152)
  else
    varLoop 3 v

/-- Decoder of a 7-bit-per-byte high-bit-continuation varint (the spec's
"Unsigned varint: 7 bits per byte, continuation in high bit").  Returns `none`
when the byte list ends while the continuation bit is still set. -/
def decodeVar : List Nat → Option Nat
  | [] => none
  | b :: rest =>
      if b < 128 then some b
      else (decodeVar rest).map fun w => (b - 128) + 128 * w

theorem decodeVar_varLoop (fuel v : Nat) (h : v < 128 ^ (fuel + 1)) :
    decodeVar (varLoop fuel v) = some v := by
  induction fuel generalizing v with
  | zero =>
      have hv : v < 128 := by norm_num at h; omega
      simp [varLoop, decodeVar, hv]
  | succ fuel ih =>
      by_cases hv : v > 0x7f
      · have hP : (128 : Nat) ^ (fuel + 1 + 1) = 128 ^ (fuel + 1) * 128 := by ring
        have hdiv : v / 128 < 128 ^ (fuel + 1) := Nat.div_lt_of_lt_mul (by omega)
        simp only [varLoop, if_pos hv, decodeVar]
        have hb : ¬ (v % 128 + 128 < 128) := by omega
        simp only [if_neg hb, ih _ hdiv, Option.map_some']
        simp only [Option.some.injEq]
        omega
      · simp only [varLoop, if_neg hv, decodeVar]
        have hlt : v < 128 := by omega
        simp [hlt]

theorem putVar32_roundtrip (v : Nat) (h : v < 2 ^ 32) :
    decodeVar (putVar32 v) = some v := by
  apply decodeVar_varLoop
  calc v < 2 ^ 32 := h
  _ ≤ 128 ^ 6 := by norm_num

theorem decodeVar_fastBytes (v w : Nat) (rest : List Nat)
    (h : decodeVar rest = some w) :
    decodeVar (fastBytes v ++ rest) = some (v % 2097152 + 2097152 * w) := by
  have hsplit : fastBytes v ++ rest
      = (v % 128 + 128) :: ((v / 128 % 128 + 128) :: ((v / 16384 % 128 + 128) :: rest)) := rfl
  rw [hsplit]
  simp only [decodeVar]
  have h1 : ¬ (v % 128 + 128 < 128) := by omega
  have h2 : ¬ (v / 128 % 128 + 128 < 128) := by omega
  have h3 : ¬ (v / 16384 % 128 + 128 < 128) := by omega
  simp only [if_neg h1, if_neg h2, if_neg h3, h, Option.map_some']
  have e1 : v / 128 / 128 = v / 16384 := by rw [Nat.div_div_eq_div_mul]
  have e2 : v / 16384 / 128 = v / 2097152 := by rw [Nat.div_div_eq_div_mul]
  simp only [Option.some.injEq]
  omega

/-- Round-trip of `putVar64` for every value below `2 ^ 63` (every nonnegative
jlong): the fast loop never reaches its third `++iter` exit for such values. -/
theorem putVar64_roundtrip (v : Nat) (h : v < 2 ^ 63) :
    decodeVar (putVar64 v) = some v := by
  have hpow : (128 : Nat) ^ (3 + 1) = 268435456 := by norm_num
  unfold putVar64
  by_cases h1 : v > 0x1fffff
  · by_cases h2 : v / 2097152 > 0x1fffff
    · have h3 : ¬ (v / 2097152 / 2097152 > 0x1fffff) := by omega
      simp only [if_pos h1, if_pos h2, if_neg h3, List.append_assoc]
      have t1 : decodeVar (varLoop 3 (v / 2097152 / 2097152)) =
          some (v / 2097152 / 2097152) :=
        decodeVar_varLoop 3 _ (by omega)
      have t2 := decodeVar_fastBytes (v / 2097152) _ _ t1
      rw [decodeVar_fastBytes _ _ _ t2]
      simp only [Option.some.injEq]
      omega
    · simp only [if_pos h1, if_neg h2]
      have t1 : decodeVar (varLoop 3 (v / 2097152)) = some (v / 2097152) :=
        decodeVar_varLoop 3 _ (by omega)
      rw [decodeVar_fastBytes _ _ _ t1]
      simp only [Option.some.injEq]
      omega
  · simp only [if_neg h1]
    exact decodeVar_varLoop 3 _ (by omega)

/-- C2: for `v = 2 ^ 63` the encoder `putVar64` emits nine bytes that all have
the continuation bit set (`0x80`), dropping bit 63 of the value and leaving
the varint unterminated, so decoding the written bytes cannot return `v`
(it fails instead of producing `2 ^ 63`): the round-trip law
`decode(encode(x)) == x` does not hold at this input. -/
theorem putVar64_drops_high_bit :
    putVar64 (2 ^ 63) = [128, 128, 128, 128, 128, 128, 128, 128, 128] ∧
      decodeVar (putVar64 (2 ^ 63)) = none := by
  constructor
  · rfl
  · rfl

/-! ### NativeFunc & CodeCache (src/ddprof-lib/src/main/cpp/codeCache.{h,cpp}) -/

/-- Model of `CodeBlob` (codeCache.h lines 63-82): a `[start, end)` native address
range with a symbol name; pointers are modelled as `Nat` addresses. -/
structure CodeBlob where
  _start : Nat
  _end : Nat
  _name : String
deriving DecidableEq

def dummyBlob : CodeBlob := ⟨0, 0, ""⟩

/-- Model of `CodeBlob::comparator` (codeCache.h lines 69-81): order by `_start`
ascending, ties broken by `_end` descending. -/
def CodeBlob.comparator (cb1 cb2 : CodeBlob) : Int :=
  if cb1._start < cb2._start then -1
  else if cb1._start > cb2._start then 1
  else if cb1._end = cb2._end then 0
  else if cb1._end > cb2._end then -1
  else 1

/-- Modelled from the spec: dwarf.h is not under src/; §4.1 describes the
dwarf table as a sorted array of `(loc, frame_desc)` pairs, so the payload is
kept opaque. -/
structure FrameDesc where
  loc : Nat
  frame_desc : Nat
deriving DecidableEq

def INITIAL_CODE_CACHE_CAPACITY : Nat := 1000

/-- Value of `NO_MIN_ADDRESS`, i.e. `(const void*)-1`, the all-ones 64-bit pointer. -/
def NO_MIN_ADDRESS : Nat := 2 ^ 64 - 1

/-- Value of `NO_MAX_ADDRESS`, i.e. `(const void*)0`. -/
def NO_MAX_ADDRESS : Nat := 0

/-- Model of `CodeCache` (codeCache.h lines 87-164): `_blobs` holds the `_count`
populated entries (so `_count` is `_blobs.length`), `_capacity` the allocated
array length. -/
structure CodeCache where
  _name : String
  _lib_index : Int
  _min_address : Nat
  _max_address : Nat
  _text_base : Nat
  _got_start : Nat
  _got_end : Nat
  _dwarf_table : List FrameDesc
  _capacity : Nat
  _blobs : List CodeBlob
deriving DecidableEq

/-- Model of `CodeCache::operator=` (codeCache.cpp lines 78-104) for `&other != this`:
the old name, dwarf table and blob array are deleted, the bookkeeping fields
are copied from `other`, and the dwarf table and blob vector are reset to
empty (`_dwarf_table = NULL`, `_dwarf_table_length = 0`,
`_capacity = INITIAL_CODE_CACHE_CAPACITY`, `_count = 0`). -/
def CodeCache.assign (other : CodeCache) : CodeCache :=
  { _name := other._name
    _lib_index := other._lib_index
    _min_address := other._min_address
    _max_address := other._max_address
    _text_base := other._text_base
    _got_start := other._got_start
    _got_end := other._got_end
    _dwarf_table := []
    _capacity := INITIAL_CODE_CACHE_CAPACITY
    _blobs := [] }

/-- Model of `CodeCache::CodeCache(const CodeCache&)` (codeCache.cpp lines 58-76): the
bookkeeping fields, the `_count` blobs and the `_dwarf_table_length` dwarf
entries are all copied; the GOT range is reset to NULL. -/
def CodeCache.copyCtor (other : CodeCache) : CodeCache :=
  { other with _got_start := 0, _got_end := 0 }

/-- The loop of `CodeCache::binarySearch` (codeCache.cpp lines 181-193).
`mid = (unsigned int)(low + high) >> 1` is `(low + high).toNat / 2`; the sum
is nonnegative whenever the loop body runs.  The interval `[low, high]`
shrinks strictly on every iteration, so the fuel `count + 1` supplied by
`binarySearch` can never be exhausted; on exhaustion the loop result
`Sum.inl low` coincides with normal loop exit. -/
def binarySearchLoop (blobs : List CodeBlob) (address : Nat) :
    Nat → Int → Int → Int ⊕ String
  | 0, low, _high => Sum.inl low
  | fuel + 1, low, high =>
    if low ≤ high then
      let mid : Nat := (low + high).toNat / 2
      if (blobs.getD mid dummyBlob)._end ≤ address then
        binarySearchLoop blobs address fuel ((mid : Int) + 1) high
      else if (blobs.getD mid dummyBlob)._start > address then
        binarySearchLoop blobs address fuel low ((mid : Int) - 1)
      else
        Sum.inr (blobs.getD mid dummyBlob)._name
    else Sum.inl low

/-- Model of `CodeCache::binarySearch(const void* address)` (codeCache.cpp lines
180-201), including the zero-size / return-address fallback on the blob
preceding the final `low` and the cache name as last resort. -/
def CodeCache.binarySearch (c : CodeCache) (address : Nat) : String :=
  match binarySearchLoop c._blobs address (c._blobs.length + 1) 0
      ((c._blobs.length : Int) - 1) with
  | Sum.inr name => name
  | Sum.inl low =>
    if 0 < low ∧
        ((c._blobs.getD (low - 1).toNat dummyBlob)._start
            = (c._blobs.getD (low - 1).toNat dummyBlob)._end
          ∨ (c._blobs.getD (low - 1).toNat dummyBlob)._end = address) then
      (c._blobs.getD (low - 1).toNat dummyBlob)._name
    else c._name

/-- Model of `CodeCache::sort()` (codeCache.cpp lines 153-160): `qsort` the blobs with
`CodeBlob::comparator` (modelled as an insertion sort over the comparator
ordering, which produces the same list whenever no two blobs share both
`_start` and `_end`), then replace the `NO_MIN_ADDRESS` / `NO_MAX_ADDRESS`
sentinels by the first blob's start and the last blob's end. -/
def CodeCache.sort (c : CodeCache) : CodeCache :=
  if c._blobs.length = 0 then c
  else
    let sorted := List.insertionSort
        (fun cb1 cb2 => CodeBlob.comparator cb1 cb2 ≤ 0) c._blobs
    { c with
      _blobs := sorted
      _min_address := if c._min_address = NO_MIN_ADDRESS
        then (sorted.getD 0 dummyBlob)._start else c._min_address
      _max_address := if c._max_address = NO_MAX_ADDRESS
        then (sorted.getD (sorted.length - 1) dummyBlob)._end
        else c._max_address }

/-- The insertion point of `address` in a sorted blob list: the number of
blobs whose `_end` lies at or below the address (this is the final value of
`low` in `binarySearchLoop`). -/
def insertionPoint (blobs : List CodeBlob) (address : Nat) : Nat :=
  blobs.countP fun b => decide (b._end ≤ address)

theorem getD_mem_of_lt {l : List CodeBlob} {i : Nat} (h : i < l.length) :
    l.getD i dummyBlob ∈ l := by
  rw [List.getD_eq_getElem l dummyBlob h]
  exact List.getElem_mem h

theorem sorted_end_le_start {l : List CodeBlob}
    (hs : l.Pairwise fun a b => a._end ≤ b._start)
    {i j : Nat} (hij : i < j) (hj : j < l.length) :
    (l.getD i dummyBlob)._end ≤ (l.getD j dummyBlob)._start := by
  have hi : i < l.length := Nat.lt_trans hij hj
  rw [List.getD_eq_getElem l dummyBlob hi, List.getD_eq_getElem l dummyBlob hj]
  exact List.pairwise_iff_getElem.mp hs i j hi hj hij

theorem countP_eq_of_cut (p : CodeBlob → Bool) :
    ∀ (l : List CodeBlob) (L : Nat), L ≤ l.length →
      (∀ i : Nat, i < l.length → (i < L ↔ p (l.getD i dummyBlob) = true)) →
      l.countP p = L := by
  intro l
  induction l with
  | nil =>
      intro L hL _
      simp only [List.length_nil, Nat.le_zero] at hL
      simp [hL]
  | cons a t ih =>
      intro L hL hcut
      match L with
      | 0 =>
          have ha : ¬ (p a = true) := fun hp =>
            absurd ((hcut 0 (by simp)).mpr (by simpa using hp)) (by omega)
          have ht : t.countP p = 0 := by
            apply ih 0 (by omega)
            intro i hi
            constructor
            · omega
            · intro hp
              exact absurd ((hcut (i + 1) (by simp; omega)).mpr
                (by simpa using hp)) (by omega)
          simp [List.countP_cons, ht, Bool.not_eq_true] at ha ⊢
          simp [ha]
      | K + 1 =>
          have ha : p a = true := by
            have := (hcut 0 (by simp)).mp (by omega)
            simpa using this
          have ht : t.countP p = K := by
            apply ih K (by simp at hL; omega)
            intro i hi
            constructor
            · intro hiK
              have := (hcut (i + 1) (by simp; omega)).mp (by omega)
              simpa using this
            · intro hp
              have := (hcut (i + 1) (by simp; omega)).mpr (by simpa using hp)
              omega
          simp [List.countP_cons, ht, ha]

/-- Characterization of the `binarySearch` loop on a well-formed sorted blob
list: starting from a window `[low, high]` whose outside already satisfies the
search invariants, the loop either returns the name of a blob containing the
address, or exits with the insertion point `L`, every blob below `L` ending at
or before the address and every blob at or above `L` starting beyond it. -/
theorem binarySearchLoop_spec (blobs : List CodeBlob) (address : Nat)
    (hwf : ∀ b ∈ blobs, b._start ≤ b._end)
    (hs : blobs.Pairwise fun a b => a._end ≤ b._start) :
    ∀ (fuel : Nat) (low high : Int),
      0 ≤ low → low ≤ high + 1 → high < (blobs.length : Int) →
      (high + 1 - low).toNat ≤ fuel →
      (∀ i : Nat, i < blobs.length → (i : Int) < low →
        (blobs.getD i dummyBlob)._end ≤ address) →
      (∀ i : Nat, i < blobs.length → high < (i : Int) →
        address < (blobs.getD i dummyBlob)._start) →
      (∃ m : Nat, m < blobs.length ∧
          (blobs.getD m dummyBlob)._start ≤ address ∧
          address < (blobs.getD m dummyBlob)._end ∧
          binarySearchLoop blobs address fuel low high
            = Sum.inr (blobs.getD m dummyBlob)._name) ∨
      (∃ L : Nat, binarySearchLoop blobs address fuel low high
            = Sum.inl (L : Int) ∧
          L ≤ blobs.length ∧
          (∀ i : Nat, i < blobs.length → i < L →
            (blobs.getD i dummyBlob)._end ≤ address) ∧
          (∀ i : Nat, i < blobs.length → L ≤ i →
            address < (blobs.getD i dummyBlob)._start)) := by
  intro fuel
  induction fuel with
  | zero =>
      intro low high h0 hlh hhi hfuel hinvL hinvH
      right
      refine ⟨low.toNat, ?_, by omega, ?_, ?_⟩
      · simp only [binarySearchLoop]
        have hcast : ((low.toNat : Nat) : Int) = low := by omega
        rw [hcast]
      · intro i hi hiL
        exact hinvL i hi (by omega)
      · intro i hi hLi
        exact hinvH i hi (by omega)
  | succ fuel ih =>
      intro low high h0 hlh hhi hfuel hinvL hinvH
      by_cases hcase : low ≤ high
      case neg =>
        right
        refine ⟨low.toNat, ?_, by omega, ?_, ?_⟩
        · simp only [binarySearchLoop, if_neg hcase]
          have hcast : ((low.toNat : Nat) : Int) = low := by omega
          rw [hcast]
        · intro i hi hiL
          exact hinvL i hi (by omega)
        · intro i hi hLi
          exact hinvH i hi (by omega)
      case pos =>
        simp only [binarySearchLoop, if_pos hcase]
        set m : Nat := (low + high).toNat / 2 with hm
        have hlowm : low ≤ (m : Int) := by omega
        have hmhigh : (m : Int) ≤ high := by omega
        have hmlen : m < blobs.length := by omega
        by_cases h1 : (blobs.getD m dummyBlob)._end ≤ address
        · rw [if_pos h1]
          apply ih ((m : Int) + 1) high (by omega) (by omega) hhi (by omega)
          · intro i hi hilt
            rcases Nat.lt_or_ge i m with him | him
            · exact le_trans (le_trans (sorted_end_le_start hs him hmlen)
                (hwf _ (getD_mem_of_lt hmlen))) h1
            · have hieq : i = m := by omega
              rw [hieq]
              exact h1
          · exact hinvH
        · rw [if_neg h1]
          by_cases h2 : (blobs.getD m dummyBlob)._start > address
          · rw [if_pos h2]
            apply ih low ((m : Int) - 1) h0 (by omega) (by omega) (by omega)
              hinvL
            intro i hi hgt
            rcases Nat.lt_or_ge m i with hmi | hmi
            · exact lt_of_lt_of_le h2
                (le_trans (hwf _ (getD_mem_of_lt hmlen))
                  (sorted_end_le_start hs hmi hi))
            · have hieq : i = m := by omega
              rw [hieq]
              exact h2
          · rw [if_neg h2]
            left
            exact ⟨m, hmlen, by omega, by omega, rfl⟩

/-- C10: after copy assignment `cc = other` (with `&other != &cc`) the target
holds zero blobs, capacity `INITIAL_CODE_CACHE_CAPACITY` and an empty dwarf
table regardless of `other`'s contents, while the copy constructor copies all
of `other`'s blobs and dwarf entries. -/
theorem codeCache_assign_resets (other : CodeCache) :
    (CodeCache.assign other)._blobs = [] ∧
      (CodeCache.assign other)._capacity = INITIAL_CODE_CACHE_CAPACITY ∧
      (CodeCache.assign other)._dwarf_table = [] ∧
      (CodeCache.copyCtor other)._blobs = other._blobs ∧
      (CodeCache.copyCtor other)._dwarf_table = other._dwarf_table :=
  ⟨rfl, rfl, rfl, rfl, rfl⟩

/-- C1: for every sorted `CodeCache` (well-formed blobs, pairwise disjoint in
ascending order) and every address, `binarySearch` returns the name of the
blob whose `[start, end)` range contains the address when one exists; when no
blob contains it, it returns the name of the blob preceding the insertion
point if that blob has zero size or ends exactly at the address, and the
cache's own name otherwise; the result is always some blob's name or the
cache's name, never null. -/
theorem binarySearch_resolves (c : CodeCache) (address : Nat)
    (hwf : ∀ b ∈ c._blobs, b._start ≤ b._end)
    (hs : c._blobs.Pairwise fun a b => a._end ≤ b._start) :
    (∀ b ∈ c._blobs, b._start ≤ address → address < b._end →
      c.binarySearch address = b._name) ∧
    ((∀ b ∈ c._blobs, ¬ (b._start ≤ address ∧ address < b._end)) →
      (0 < insertionPoint c._blobs address →
        ((c._blobs.getD (insertionPoint c._blobs address - 1) dummyBlob)._start
            = (c._blobs.getD (insertionPoint c._blobs address - 1)
                dummyBlob)._end
          ∨ (c._blobs.getD (insertionPoint c._blobs address - 1)
                dummyBlob)._end = address) →
        c.binarySearch address
          = (c._blobs.getD (insertionPoint c._blobs address - 1)
              dummyBlob)._name) ∧
      ((insertionPoint c._blobs address = 0 ∨
          ((c._blobs.getD (insertionPoint c._blobs address - 1)
                dummyBlob)._start
              ≠ (c._blobs.getD (insertionPoint c._blobs address - 1)
                  dummyBlob)._end
            ∧ (c._blobs.getD (insertionPoint c._blobs address - 1)
                dummyBlob)._end ≠ address)) →
        c.binarySearch address = c._name)) ∧
    ((∃ b ∈ c._blobs, c.binarySearch address = b._name) ∨
      c.binarySearch address = c._name) := by
  have hchar := binarySearchLoop_spec c._blobs address hwf hs
    (c._blobs.length + 1) 0 ((c._blobs.length : Int) - 1)
    (by omega) (by omega) (by omega) (by omega)
    (fun i hi hlt => absurd hlt (by omega))
    (fun i hi hgt => absurd hgt (by omega))
  rcases hchar with ⟨m, hmlen, hms, hme, heq⟩ | ⟨L, heq, hLlen, hbelow, habove⟩
  · -- the loop found a containing blob
    have hres : c.binarySearch address = (c._blobs.getD m dummyBlob)._name := by
      unfold CodeCache.binarySearch
      rw [heq]
    refine ⟨?_, ?_, ?_⟩
    · intro b hb hbs hbe
      obtain ⟨j, hj, hbj⟩ := List.getElem_of_mem hb
      have hbj' : c._blobs.getD j dummyBlob = b := by
        rw [List.getD_eq_getElem _ _ hj]
        exact hbj
      have hjm : j = m := by
        by_contra hne
        rcases Nat.lt_or_ge j m with h' | h'
        · have hjs := sorted_end_le_start hs h' hmlen
          rw [hbj'] at hjs
          omega
        · have hmj : m < j := by omega
          have hjs := sorted_end_le_start hs hmj hj
          rw [hbj'] at hjs
          omega
      rw [hres, ← hjm, hbj']
    · intro hnone
      exact absurd ⟨hms, hme⟩ (hnone _ (getD_mem_of_lt hmlen))
    · exact Or.inl ⟨_, getD_mem_of_lt hmlen, hres⟩
  · -- the loop exited at the insertion point L
    have hLcount : insertionPoint c._blobs address = L := by
      apply countP_eq_of_cut _ _ L hLlen
      intro i hi
      constructor
      · intro hiL
        simpa using hbelow i hi hiL
      · intro hp
        by_contra hge
        have hst := habove i hi (by omega)
        have hwfi := hwf _ (getD_mem_of_lt hi)
        simp only [decide_eq_true_eq] at hp
        omega
    have hres : c.binarySearch address
        = if 0 < (L : Int) ∧
            ((c._blobs.getD ((L : Int) - 1).toNat dummyBlob)._start
                = (c._blobs.getD ((L : Int) - 1).toNat dummyBlob)._end
              ∨ (c._blobs.getD ((L : Int) - 1).toNat dummyBlob)._end
                = address) then
            (c._blobs.getD ((L : Int) - 1).toNat dummyBlob)._name
          else c._name := by
      unfold CodeCache.binarySearch
      rw [heq]
    have htn : ((L : Int) - 1).toNat = L - 1 := by omega
    have hzero : (0 < (L : Int)) ↔ 0 < L := by omega
    rw [htn] at hres
    refine ⟨?_, ?_, ?_⟩
    · intro b hb hbs hbe
      obtain ⟨j, hj, hbj⟩ := List.getElem_of_mem hb
      have hbj' : c._blobs.getD j dummyBlob = b := by
        rw [List.getD_eq_getElem _ _ hj]
        exact hbj
      rcases Nat.lt_or_ge j L with h' | h'
      · have := hbelow j hj h'
        rw [hbj'] at this
        omega
      · have := habove j hj h'
        rw [hbj'] at this
        omega
    · intro _hnone
      rw [hLcount]
      constructor
      · intro hpos hcond
        rw [hres, if_pos ⟨by omega, hcond⟩]
      · intro hcond
        rw [hres, if_neg ?_]
        rintro ⟨hp, hc⟩
        rcases hcond with h0 | ⟨hne1, hne2⟩
        · omega
        · rcases hc with hc | hc
          · exact hne1 hc
          · exact hne2 hc
    · by_cases hcond : 0 < (L : Int) ∧
          ((c._blobs.getD (L - 1) dummyBlob)._start
              = (c._blobs.getD (L - 1) dummyBlob)._end
            ∨ (c._blobs.getD (L - 1) dummyBlob)._end = address)
      · rw [hres, if_pos hcond]
        exact Or.inl ⟨_, getD_mem_of_lt (by omega), rfl⟩
      · rw [hres, if_neg hcond]
        exact Or.inr rfl

/-- Witness cache for `binarySearch_resolves`: one blob `[16, 32) = "fn"`. -/
def cacheW : CodeCache :=
  { _name := "libw", _lib_index := 0, _min_address := 16, _max_address := 32,
    _text_base := 0, _got_start := 0, _got_end := 0, _dwarf_table := [],
    _capacity := 1000, _blobs := [⟨16, 32, "fn"⟩] }

theorem binarySearch_resolves_witness :
    cacheW.binarySearch 20 = "fn" :=
  (binarySearch_resolves cacheW 20 (by decide) (by decide)).1
    ⟨16, 32, "fn"⟩ (by decide) (by decide) (by decide)

/-- The scenario S1 cache: blobs `[0x1000,0x1100) = "foo"` and
`[0x1100,0x1200) = "bar"` in a cache named `"libS1"`. -/
def cacheS1 : CodeCache :=
  { _name := "libS1", _lib_index := 0, _min_address := NO_MIN_ADDRESS,
    _max_address := NO_MAX_ADDRESS, _text_base := 0, _got_start := 0,
    _got_end := 0, _dwarf_table := [], _capacity := 1000,
    _blobs := [⟨0x1000, 0x1100, "foo"⟩, ⟨0x1100, 0x1200, "bar"⟩] }

/-- C6 counterexample: on the S1 cache, `binarySearch(0x1200)` does not fall
back to the cache's own name; the return-address rule fires because the "bar"
blob ends exactly at `0x1200`, so "bar" is returned. -/
theorem binarySearch_end_boundary_cex :
    (cacheS1.sort).binarySearch 0x1200 = "bar" ∧
      "bar" ≠ cacheS1._name := by
  constructor
  · rfl
  · decide

/-- C6 (amended): on the sorted S1 cache, `binarySearch(0x10ff) = "foo"`,
`binarySearch(0x1100) = "bar"`, and `binarySearch(0x1200) = "bar"` (the
return-address rule applies to the last blob as well, so the cache name is
not used). -/
theorem binarySearch_s1_lookups :
    (cacheS1.sort).binarySearch 0x10ff = "foo" ∧
      (cacheS1.sort).binarySearch 0x1100 = "bar" ∧
      (cacheS1.sort).binarySearch 0x1200 = "bar" := by
  refine ⟨?_, ?_, ?_⟩ <;> rfl

/-! ### Context table (src/ddprof-lib/src/main/cpp/context.cpp) -/

/-- Model of `Context` record (context.h is not under src/; the fields are modelled
from the spec §3: `{span_id, root_span_id, checksum, parallelism, ...}`, all
64-bit). -/
structure Context where
  spanId : Nat
  rootSpanId : Nat
  checksum : Nat
  parallelism : Nat
deriving DecidableEq

/-- Model of `DD_EMPTY_CONTEXT` (context.cpp line 26): a zero-initialized record. -/
def DD_EMPTY_CONTEXT : Context := ⟨0, 0, 0, 0⟩

/-- Model of `Contexts::empty()` (context.cpp lines 41-43). -/
def Contexts.empty : Context := DD_EMPTY_CONTEXT

/-- Model of `Contexts::get(int tid)` (context.cpp lines 28-39).  The page array
`_pages` is the list of allocated pages (`none` for a NULL page pointer);
`pageShift` is `DD_CONTEXT_PAGE_SHIFT` and the mask `2 ^ pageShift - 1` is
`DD_CONTEXT_PAGE_MASK` (context.h is not under src/; the spec §3 fixes the
page size to a power of two with `(tid >> shift, tid & mask)` indexing).
A missing page or a failed checksum test `spanId ^ rootSpanId == checksum`
yields the shared empty record. -/
def Contexts.get (pages : List (Option (List Context))) (pageShift : Nat)
    (tid : Nat) : Context :=
  match pages.getD (tid >>> pageShift) none with
  | none => Contexts.empty
  | some page =>
      let context := page.getD (tid &&& (2 ^ pageShift - 1)) DD_EMPTY_CONTEXT
      if context.spanId ^^^ context.rootSpanId = context.checksum then context
      else Contexts.empty

/-- C3: for every tid, `Contexts::get` returns either the shared empty record
or a record satisfying `span_id XOR root_span_id == checksum`; in particular
an unallocated page or a slot failing the checksum test yields the shared
empty record. -/
theorem contexts_get_checksum_guard (pages : List (Option (List Context)))
    (pageShift tid : Nat) :
    (Contexts.get pages pageShift tid = Contexts.empty ∨
      (Contexts.get pages pageShift tid).spanId
          ^^^ (Contexts.get pages pageShift tid).rootSpanId
        = (Contexts.get pages pageShift tid).checksum) ∧
    (pages.getD (tid >>> pageShift) none = none →
      Contexts.get pages pageShift tid = Contexts.empty) ∧
    (∀ page, pages.getD (tid >>> pageShift) none = some page →
      ¬ ((page.getD (tid &&& (2 ^ pageShift - 1)) DD_EMPTY_CONTEXT).spanId
            ^^^ (page.getD (tid &&& (2 ^ pageShift - 1))
              DD_EMPTY_CONTEXT).rootSpanId
          = (page.getD (tid &&& (2 ^ pageShift - 1))
              DD_EMPTY_CONTEXT).checksum) →
      Contexts.get pages pageShift tid = Contexts.empty) := by
  refine ⟨?_, ?_, ?_⟩
  · cases hpage : pages.getD (tid >>> pageShift) none with
    | none =>
        left
        unfold Contexts.get
        rw [hpage]
    | some page =>
        by_cases hchk : (page.getD (tid &&& (2 ^ pageShift - 1))
              DD_EMPTY_CONTEXT).spanId
            ^^^ (page.getD (tid &&& (2 ^ pageShift - 1))
              DD_EMPTY_CONTEXT).rootSpanId
          = (page.getD (tid &&& (2 ^ pageShift - 1))
              DD_EMPTY_CONTEXT).checksum
        · right
          unfold Contexts.get
          rw [hpage]
          simp only [if_pos hchk]
          exact hchk
        · left
          unfold Contexts.get
          rw [hpage]
          simp only [if_neg hchk]
  · intro hnone
    unfold Contexts.get
    rw [hnone]
  · intro page hpage hchk
    unfold Contexts.get
    rw [hpage]
    simp only [if_neg hchk]

/-- Witness for `contexts_get_checksum_guard`: a NULL page yields the empty
record, and a torn slot (checksum 4, but 1 XOR 2 = 3) yields the empty
record. -/
theorem contexts_get_checksum_guard_witness :
    Contexts.get [none] 3 0 = Contexts.empty ∧
      Contexts.get [some [⟨1, 2, 4, 0⟩]] 3 0 = Contexts.empty := by
  constructor
  · exact (contexts_get_checksum_guard [none] 3 0).2.1 rfl
  · exact (contexts_get_checksum_guard [some [⟨1, 2, 4, 0⟩]] 3 0).2.2
      [⟨1, 2, 4, 0⟩] rfl (by decide)

/-! ### Chunk rotation (src/src/flightRecorder.cpp lines 473-474 and 581-583) -/

def MAX_JLONG : Nat := 0x7fffffffffffffff

/-- Model of `_chunk_size = args._chunk_size <= 0 ? MAX_JLONG : (args._chunk_size <
262144 ? 262144 : args._chunk_size);` (flightRecorder.cpp line 473).  The
configured value is a signed integer (the `Arguments` declaration is not
under src/; the `<= 0` comparison and the `MAX_JLONG` substitute fix a jlong);
storing it in the `u64 _chunk_size` field truncates modulo `2 ^ 64`. -/
def chunkSizeOf (chunk_size_arg : Int) : Nat :=
  if chunk_size_arg ≤ 0 then MAX_JLONG
  else if chunk_size_arg < 262144 then 262144
  else chunk_size_arg.toNat % 2 ^ 64

/-- Model of `_chunk_time = args._chunk_time <= 0 ? MAX_JLONG : (args._chunk_time < 5 ?
5 : args._chunk_time) * 1000000ULL;` (flightRecorder.cpp line 474): the
configured seconds are scaled to microseconds in 64-bit unsigned arithmetic,
so the product wraps modulo `2 ^ 64`. -/
def chunkTimeOf (chunk_time_arg : Int) : Nat :=
  if chunk_time_arg ≤ 0 then MAX_JLONG
  else ((if chunk_time_arg < 5 then 5 else chunk_time_arg).toNat * 1000000)
    % 2 ^ 64

/-- Model of `Recording::needSwitchChunk(u64 wall_time)` (flightRecorder.cpp lines
581-583): `loadAcquire(_bytes_written) >= _chunk_size || wall_time -
_start_time >= _chunk_time`, the subtraction being u64 (modulo `2 ^ 64`). -/
def needSwitchChunk (bytes_written chunk_size start_time chunk_time
    wall_time : Nat) : Bool :=
  decide (chunk_size ≤ bytes_written) ||
    decide (chunk_time ≤ (wall_time + 2 ^ 64 - start_time) % 2 ^ 64)

/-- C8 counterexample: the configured chunk time 18446744073710 seconds is a
valid positive jlong, yet `(t < 5 ? 5 : t) * 1000000ULL` wraps modulo
`2 ^ 64` to 448384 microseconds, under the claimed 5-second (5000000 µs)
floor. -/
theorem chunkTime_floor_cex :
    chunkTimeOf 18446744073710 = 448384 ∧ 448384 < 5000000 := by
  constructor
  · rfl
  · decide

/-- C8 (amended): `needSwitchChunk(wall_time)` is true exactly when
`bytes_written >= chunk_size` or `wall_time - start_time >= chunk_time`; the
size threshold is floored at 262144 bytes for every configured value, and the
time threshold is floored at 5 seconds for every configured value whose
microsecond scaling fits in 64 bits (`t * 1000000 < 2 ^ 64`); beyond that the
64-bit multiplication wraps and can land under the floor. -/
theorem needSwitchChunk_spec (s t : Int) (b st w : Nat)
    (hs : s < 2 ^ 63) (ht : t * 1000000 < 2 ^ 64)
    (hst : st ≤ w) (hw : w < 2 ^ 64) :
    (needSwitchChunk b (chunkSizeOf s) st (chunkTimeOf t) w = true ↔
      (chunkSizeOf s ≤ b ∨ chunkTimeOf t ≤ w - st)) ∧
    262144 ≤ chunkSizeOf s ∧
    5000000 ≤ chunkTimeOf t := by
  have hsub : (w + 2 ^ 64 - st) % 2 ^ 64 = w - st := by omega
  refine ⟨?_, ?_, ?_⟩
  · unfold needSwitchChunk
    rw [hsub]
    simp
  · unfold chunkSizeOf
    split
    · unfold MAX_JLONG
      omega
    · split
      · omega
      · omega
  · unfold chunkTimeOf
    by_cases h0 : t ≤ 0
    · rw [if_pos h0]
      unfold MAX_JLONG
      omega
    · rw [if_neg h0]
      by_cases h5 : t < 5
      · rw [if_pos h5]
        decide
      · rw [if_neg h5]
        have hlt : t.toNat * 1000000 < 2 ^ 64 := by omega
        rw [Nat.mod_eq_of_lt hlt]
        omega

/-- Witness for `needSwitchChunk_spec` at chunk size 1 MiB, chunk time 60 s,
bytes 0, start 10, wall 20. -/
theorem needSwitchChunk_spec_witness :
    262144 ≤ chunkSizeOf 1048576 ∧ 5000000 ≤ chunkTimeOf 60 :=
  ⟨(needSwitchChunk_spec 1048576 60 0 10 20 (by decide) (by decide)
      (by decide) (by decide)).2.1,
    (needSwitchChunk_spec 1048576 60 0 10 20 (by decide) (by decide)
      (by decide) (by decide)).2.2⟩

/-! ### Liveness tracker (src/ddprof-lib/src/main/cpp/livenessTracker.cpp)

The tracker state is sequentialized: the CAS on `_table_size` always succeeds
on the first try, `tryLockShared` / `NewWeakGlobalRef` outcomes are boolean
oracles, and `env->IsSameObject(ref, NULL)` is `isSameObjectNull dead`, where
`dead` tells which weak handles have a collected referent (a NULL handle
always compares same-as-null, per JNI).  `_table` holds the `_table_size`
populated entries, so `_table_size` is `_table.length`. -/

/-- Model of `TrackingEntry` (livenessTracker.h is not under src/; fields are the ones
assigned in `LivenessTracker::track`, lines 264-273: tid, TSC time, weak ref,
alloc event, age, frames and a context snapshot). -/
structure TrackingEntry where
  tid : Int
  time : Nat
  ref : Option Nat
  alloc : Nat
  age : Nat
  frames_size : Nat
  frames : List Nat
  ctx : Context
deriving DecidableEq

structure TrackerState where
  _table : List TrackingEntry
  _table_cap : Nat
  _table_max_cap : Nat
  _gc_epoch : Nat
  _last_gc_epoch : Nat
deriving DecidableEq

/-- Model of `env->IsSameObject(ref, NULL)`: true for a NULL reference and for a weak
reference whose referent has been collected. -/
def isSameObjectNull (dead : Nat → Bool) : Option Nat → Bool
  | none => true
  | some h => dead h

/-- The walk of `LivenessTracker::cleanup_table` (livenessTracker.cpp lines
53-64).  A surviving entry executes `_table[i].age += epoch_diff;
_table[newsz++] = _table[i]; _table[i].ref = NULL;` — when `newsz - 1 == i`
the copy is the entry itself, so the trailing store clears the ref of the
entry just kept; that aliasing is the `if newsz = i then none else e.ref`
below.  A dead entry has its weak ref dropped and its frames freed and is not
kept.  Writes only touch indices `≤ i`, so each iteration reads the original
entry at `i`. -/
def cleanupWalk (isDead : Option Nat → Bool) (epoch_diff : Nat) :
    List TrackingEntry → Nat → Nat → List TrackingEntry
  | [], _i, _newsz => []
  | e :: rest, i, newsz =>
    if isDead e.ref = false then
      { e with age := e.age + epoch_diff,
               ref := if newsz = i then none else e.ref }
        :: cleanupWalk isDead epoch_diff rest (i + 1) (newsz + 1)
    else
      cleanupWalk isDead epoch_diff rest (i + 1) newsz

/-- Model of `LivenessTracker::cleanup_table()` (livenessTracker.cpp lines 35-72): if
the GC epoch has not advanced, return (the sequential CAS otherwise
succeeds); else advance `_last_gc_epoch`, walk the table under the write lock
and keep the compacted prefix. -/
def LivenessTracker.cleanup_table (dead : Nat → Bool) (s : TrackerState) :
    TrackerState :=
  if s._gc_epoch = s._last_gc_epoch then s
  else
    { s with
      _last_gc_epoch := s._gc_epoch
      _table := cleanupWalk (isSameObjectNull dead)
        (s._gc_epoch - s._last_gc_epoch) s._table 0 0 }

/-- The CAS claim of an index in `LivenessTracker::track` (livenessTracker.cpp
lines 256-274), sequentially: `idx = _table_size`; if `idx < _table_cap` the
CAS bumps `_table_size` and the entry is written at `idx`, otherwise nothing
is stored.  Returns the new state and `idx`. -/
def trackInsert (s : TrackerState) (e : TrackingEntry) :
    TrackerState × Nat :=
  if s._table.length < s._table_cap then
    ({ s with _table := s._table ++ [e] }, s._table.length)
  else (s, s._table.length)

/-- The growth step of `LivenessTracker::track` (livenessTracker.cpp lines
292-306): `newcap = __min(_table_cap * 2, _table_max_cap)`; `_table_cap` is
assigned `newcap` inside the `realloc` argument, so the capacity changes even
when the reallocation fails (the entries themselves are preserved either
way). -/
def growTable (s : TrackerState) : TrackerState :=
  { s with _table_cap := min (2 * s._table_cap) s._table_max_cap }

/-- Model of `LivenessTracker::track` (livenessTracker.cpp lines 238-316): bail out
when tracking is disabled (`_table_max_cap == 0`), when the weak-ref creation
fails (`refOk = false`) or when `tryLockShared` fails (`lock1 = false`); then
claim a slot; on overflow (`idx == _table_cap`) run `cleanup_table`, grow if
allowed, and retry once (the retry's `tryLockShared` is `lock2`). -/
def LivenessTracker.track (dead : Nat → Bool) (refOk lock1 lock2 : Bool)
    (s : TrackerState) (e : TrackingEntry) : TrackerState :=
  if s._table_max_cap = 0 then s
  else if refOk = false then s
  else if lock1 = false then s
  else
    let p := trackInsert s e
    if p.2 = p.1._table_cap then
      let s2 := LivenessTracker.cleanup_table dead p.1
      if s2._table_cap < s2._table_max_cap then
        let s3 := growTable s2
        if lock2 = false then s3 else (trackInsert s3 e).1
      else s2
    else p.1

/-- Wrap to a signed 32-bit value: the implicit jlong-to-int conversion in
`int required_table_capacity = ...` (livenessTracker.cpp line 155). -/
def toInt32 (x : Int) : Int := (x + 2 ^ 31) % 2 ^ 32 - 2 ^ 31

/-- Model of `required_table_capacity` (livenessTracker.cpp line 155):
`sampling_interval > 0 ? max_heap / sampling_interval : max_heap`, stored in
an int. -/
def required_table_capacity (max_heap sampling_interval : Int) : Int :=
  toInt32 (if sampling_interval > 0 then max_heap / sampling_interval
    else max_heap)

/-- Model of `_table_max_cap = __min(MAX_TRACKING_TABLE_SIZE, required_table_capacity)`
(livenessTracker.cpp line 160).  `MTS` is `MAX_TRACKING_TABLE_SIZE`, modelled
from the spec as an abstract positive constant: livenessTracker.h is not
under src/ and the spec does not fix its value. -/
def table_max_cap (MTS : Nat) (max_heap sampling_interval : Int) : Int :=
  min (MTS : Int) (required_table_capacity max_heap sampling_interval)

/-- Model of `LivenessTracker::initialize_table` (livenessTracker.cpp lines 130-164):
fails when no heap size is known (`max_heap == -1`, after the JNI fallback);
otherwise returns `(_table_max_cap, _table_cap)` with
`_table_cap = std::max(2048, _table_max_cap / 8)` (line 162). -/
def initialize_table_cap (MTS : Nat) (max_heap sampling_interval : Int) :
    Option (Nat × Nat) :=
  if max_heap = -1 then none
  else
    some ((table_max_cap MTS max_heap sampling_interval).toNat,
      (max 2048 (table_max_cap MTS max_heap sampling_interval / 8)).toNat)

/-- The success path of `LivenessTracker::initialize` (livenessTracker.cpp
lines 185-236), i.e. Java 11+ and the JNI class/method lookups succeed (the
failure paths disable tracking entirely): after `initialize_table`, line 225
re-assigns `_table_cap = __min(2048, _table_max_cap)`, overwriting the value
computed on line 162; `_table_size`, `_gc_epoch` and `_last_gc_epoch` start
at 0. -/
def liveness_initial_state (MTS : Nat) (max_heap sampling_interval : Int) :
    Option TrackerState :=
  match initialize_table_cap MTS max_heap sampling_interval with
  | none => none
  | some (max_cap, _prelim_cap) =>
      some { _table := [], _table_cap := min 2048 max_cap,
             _table_max_cap := max_cap, _gc_epoch := 0, _last_gc_epoch := 0 }

/-- The liveness invariant `size ≤ cap ≤ max_cap`. -/
def LivenessInv (s : TrackerState) : Prop :=
  s._table.length ≤ s._table_cap ∧ s._table_cap ≤ s._table_max_cap

theorem cleanupWalk_length_le (isDead : Option Nat → Bool) (diff : Nat) :
    ∀ (l : List TrackingEntry) (i newsz : Nat),
      (cleanupWalk isDead diff l i newsz).length ≤ l.length := by
  intro l
  induction l with
  | nil => intro i newsz; simp [cleanupWalk]
  | cons e rest ih =>
      intro i newsz
      by_cases hd : isDead e.ref = false
      · simp only [cleanupWalk, if_pos hd, List.length_cons]
        exact Nat.succ_le_succ (ih (i + 1) (newsz + 1))
      · simp only [cleanupWalk, if_neg hd, List.length_cons]
        exact Nat.le_succ_of_le (ih (i + 1) newsz)

theorem trackInsert_inv {s : TrackerState} (e : TrackingEntry)
    (h : LivenessInv s) : LivenessInv (trackInsert s e).1 := by
  unfold trackInsert LivenessInv
  rcases h with ⟨h1, h2⟩
  by_cases hlt : s._table.length < s._table_cap
  · rw [if_pos hlt]
    simp only [List.length_append, List.length_cons, List.length_nil]
    omega
  · rw [if_neg hlt]
    exact ⟨h1, h2⟩

theorem cleanup_table_inv (dead : Nat → Bool) {s : TrackerState}
    (h : LivenessInv s) : LivenessInv (LivenessTracker.cleanup_table dead s) := by
  unfold LivenessTracker.cleanup_table LivenessInv
  rcases h with ⟨h1, h2⟩
  by_cases he : s._gc_epoch = s._last_gc_epoch
  · rw [if_pos he]
    exact ⟨h1, h2⟩
  · rw [if_neg he]
    refine ⟨?_, h2⟩
    exact le_trans (cleanupWalk_length_le _ _ s._table 0 0) h1

theorem growTable_inv {s : TrackerState} (h : LivenessInv s) :
    LivenessInv (growTable s) := by
  unfold growTable LivenessInv
  rcases h with ⟨h1, h2⟩
  constructor
  · simp only
    omega
  · simp only
    omega

theorem track_inv (dead : Nat → Bool) (refOk lock1 lock2 : Bool)
    {s : TrackerState} (e : TrackingEntry) (h : LivenessInv s) :
    LivenessInv (LivenessTracker.track dead refOk lock1 lock2 s e) := by
  unfold LivenessTracker.track
  by_cases h1 : s._table_max_cap = 0
  · rw [if_pos h1]; exact h
  · rw [if_neg h1]
    by_cases h2 : refOk = false
    · rw [if_pos h2]; exact h
    · rw [if_neg h2]
      by_cases h3 : lock1 = false
      · rw [if_pos h3]; exact h
      · rw [if_neg h3]
        simp only
        have hp : LivenessInv (trackInsert s e).1 := trackInsert_inv e h
        by_cases h4 : (trackInsert s e).2 = (trackInsert s e).1._table_cap
        · rw [if_pos h4]
          have hc : LivenessInv
              (LivenessTracker.cleanup_table dead (trackInsert s e).1) :=
            cleanup_table_inv dead hp
          by_cases h5 : (LivenessTracker.cleanup_table dead
                (trackInsert s e).1)._table_cap
              < (LivenessTracker.cleanup_table dead
                (trackInsert s e).1)._table_max_cap
          · rw [if_pos h5]
            have hg : LivenessInv (growTable (LivenessTracker.cleanup_table
                dead (trackInsert s e).1)) := growTable_inv hc
            by_cases h6 : lock2 = false
            · rw [if_pos h6]; exact hg
            · rw [if_neg h6]; exact trackInsert_inv e hg
          · rw [if_neg h5]; exact hc
        · rw [if_neg h4]; exact hp

/-- C7: the liveness-tracker invariant `size ≤ cap ≤ max_cap` is established
by a successful `initialize` and preserved by `track` (under every oracle
outcome) and by `cleanup_table`; `track` only claims an index (bumping the
size) while the size is strictly below the capacity, and table growth sets
the capacity to `min(2 * cap, max_cap)`. -/
theorem liveness_size_cap_invariant (dead : Nat → Bool)
    (refOk lock1 lock2 : Bool) (s : TrackerState) (e : TrackingEntry)
    (MTS : Nat) (mh si : Int) (hInv : LivenessInv s) :
    ((trackInsert s e).1._table.length
        = if s._table.length < s._table_cap then s._table.length + 1
          else s._table.length) ∧
    (trackInsert s e).1._table_cap = s._table_cap ∧
    (growTable s)._table_cap = min (2 * s._table_cap) s._table_max_cap ∧
    LivenessInv (LivenessTracker.cleanup_table dead s) ∧
    LivenessInv (LivenessTracker.track dead refOk lock1 lock2 s e) ∧
    (∀ st, liveness_initial_state MTS mh si = some st → LivenessInv st) := by
  refine ⟨?_, ?_, rfl, cleanup_table_inv dead hInv,
    track_inv dead refOk lock1 lock2 e hInv, ?_⟩
  · unfold trackInsert
    by_cases hlt : s._table.length < s._table_cap
    · rw [if_pos hlt, if_pos hlt]
      simp
    · rw [if_neg hlt, if_neg hlt]
  · unfold trackInsert
    by_cases hlt : s._table.length < s._table_cap
    · rw [if_pos hlt]
    · rw [if_neg hlt]
  · intro st hst
    unfold liveness_initial_state at hst
    cases hcap : initialize_table_cap MTS mh si with
    | none => rw [hcap] at hst; exact absurd hst (by simp)
    | some pr =>
        rw [hcap] at hst
        simp only [Option.some.injEq] at hst
        rw [← hst]
        unfold LivenessInv
        simp only [List.length_nil]
        omega

/-- Witness for `liveness_size_cap_invariant` at an empty tracker state. -/
theorem liveness_size_cap_invariant_witness :
    LivenessInv (LivenessTracker.track (fun _ => false) true true true
      ⟨[], 4, 8, 0, 0⟩ ⟨1, 0, some 1, 0, 0, 0, [], DD_EMPTY_CONTEXT⟩) :=
  (liveness_size_cap_invariant (fun _ => false) true true true
    ⟨[], 4, 8, 0, 0⟩ ⟨1, 0, some 1, 0, 0, 0, [], DD_EMPTY_CONTEXT⟩
    16 1048576 1024 (by constructor <;> decide)).2.2.2.2.1

/-- C9: whenever `LivenessTracker::track` fails to acquire the shared table
lock (`tryLockShared` returns false, livenessTracker.cpp lines 252-254), it
returns immediately with the tracker state unchanged: no entry is added, the
size is not modified, and nothing is recorded — the sample is dropped. -/
theorem track_lock_failure_drops (dead : Nat → Bool) (refOk lock2 : Bool)
    (s : TrackerState) (e : TrackingEntry) :
    LivenessTracker.track dead refOk false lock2 s e = s := by
  unfold LivenessTracker.track
  by_cases h1 : s._table_max_cap = 0
  · rw [if_pos h1]
  · rw [if_neg h1]
    by_cases h2 : refOk = false
    · rw [if_pos h2]
    · rw [if_neg h2, if_pos rfl]

/-- The C5 failing input: a single tracked entry whose referent is still
alive (`dead` is false everywhere), one GC epoch ahead. -/
def entryLive : TrackingEntry :=
  ⟨42, 0, some 7, 0, 0, 0, [], DD_EMPTY_CONTEXT⟩

def stateC5 : TrackerState := ⟨[entryLive], 2048, 2048, 1, 0⟩

/-- C5: `cleanup_table` on a table whose single entry has a live referent
advances the epoch and ages the entry, but the store `_table[i].ref = NULL`
after the self-assignment `_table[newsz++] = _table[i]` (newsz - 1 == i)
clears the kept entry's weak ref, so the remaining entry now reads as dead
(`is_same_object(e.weak, null)` is true), contradicting the claimed
postcondition that no remaining entry has a dead referent. -/
theorem cleanup_table_nulls_survivor :
    (LivenessTracker.cleanup_table (fun _ => false) stateC5)._table
        = [{ entryLive with age := 1, ref := none }] ∧
      isSameObjectNull (fun _ => false)
        (((LivenessTracker.cleanup_table (fun _ => false) stateC5)._table.getD
          0 entryLive).ref) = true := by
  constructor
  · rfl
  · rfl

/-- C4 (amended): for a known heap and positive sampling interval (with the
quotient in int range), `initialize_table` computes
`max_cap = min(MAX_TRACKING_TABLE_SIZE, max_heap / sampling_interval)` and a
preliminary capacity `max(2048, max_cap / 8)`, but `initialize` (line 225)
then sets the initial capacity to `min(2048, max_cap)`; in particular for
`max_heap = 1 GiB`, `interval = 512 KiB` and `MAX_TRACKING_TABLE_SIZE ≥ 2048`
this gives `max_cap = 2048` and initial capacity 2048. -/
theorem liveness_sizing (MTS : Nat) (max_heap sampling_interval : Int)
    (hheap : 0 ≤ max_heap) (hsi : 0 < sampling_interval)
    (hreq : max_heap / sampling_interval < 2 ^ 31) :
    initialize_table_cap MTS max_heap sampling_interval
      = some ((min (MTS : Int) (max_heap / sampling_interval)).toNat,
          max 2048
            ((min (MTS : Int) (max_heap / sampling_interval)).toNat / 8)) ∧
    liveness_initial_state MTS max_heap sampling_interval
      = some { _table := [],
               _table_cap :=
                 min 2048 (min (MTS : Int)
                   (max_heap / sampling_interval)).toNat,
               _table_max_cap :=
                 (min (MTS : Int) (max_heap / sampling_interval)).toNat,
               _gc_epoch := 0, _last_gc_epoch := 0 } ∧
    (2048 ≤ MTS →
      liveness_initial_state MTS (2 ^ 30) (2 ^ 19)
        = some { _table := [], _table_cap := 2048, _table_max_cap := 2048,
                 _gc_epoch := 0, _last_gc_epoch := 0 }) := by
  have hdivnn : 0 ≤ max_heap / sampling_interval :=
    Int.ediv_nonneg hheap (by omega)
  have hcap : initialize_table_cap MTS max_heap sampling_interval
      = some ((min (MTS : Int) (max_heap / sampling_interval)).toNat,
          max 2048
            ((min (MTS : Int) (max_heap / sampling_interval)).toNat / 8)) := by
    unfold initialize_table_cap table_max_cap required_table_capacity toInt32
    rw [if_neg (by omega), if_pos hsi]
    simp only [Option.some.injEq, Prod.mk.injEq]
    constructor
    · omega
    · omega
  refine ⟨hcap, ?_, ?_⟩
  · unfold liveness_initial_state
    rw [hcap]
  · intro hM
    have hstep : initialize_table_cap MTS (2 ^ 30) (2 ^ 19)
        = some (2048, 2048) := by
      unfold initialize_table_cap table_max_cap required_table_capacity toInt32
      rw [if_neg (by norm_num), if_pos (by norm_num)]
      simp only [Option.some.injEq, Prod.mk.injEq]
      have hq : (2 ^ 30 : Int) / 2 ^ 19 = 2048 := by norm_num
      rw [hq]
      constructor
      · omega
      · omega
    unfold liveness_initial_state
    rw [hstep]
    norm_num

/-- Witness for `liveness_sizing`: the S4 configuration with
`MAX_TRACKING_TABLE_SIZE = 4096`. -/
theorem liveness_sizing_witness :
    liveness_initial_state 4096 (2 ^ 30) (2 ^ 19)
      = some { _table := [], _table_cap := 2048, _table_max_cap := 2048,
               _gc_epoch := 0, _last_gc_epoch := 0 } :=
  (liveness_sizing 4096 (2 ^ 30) (2 ^ 19) (by norm_num) (by norm_num)
    (by norm_num)).2.2 (by norm_num)

/-- C4 counterexample: for a 1 MiB heap sampled every 1 KiB (and
`MAX_TRACKING_TABLE_SIZE = 65536`), `max_cap = 1024` and the initial
capacity set by `initialize` is `min(2048, 1024) = 1024`, not the claimed
`max(2048, max_cap / 8) = 2048`. -/
theorem liveness_cap_formula_cex :
    liveness_initial_state 65536 1048576 1024
      = some { _table := [], _table_cap := 1024, _table_max_cap := 1024,
               _gc_epoch := 0, _last_gc_epoch := 0 } ∧
      (1024 : Nat) ≠ max 2048 (1024 / 8) := by
  constructor
  · rfl
  · decide

end JavaProfiler
